import Mathlib

/-!
Shallow embedding of the transcript-assembly and audio-encoding logic of the
Gemini live-transcriber client.

The embedded code is:
* the `onmessage` transcript handler, the silence-timeout callback, and
  `stopListening` / `startListening` of the main application component
  (file `src/unnamed/part_000`), and
* `encode` / `createBlob` of `src/utils/audio.ts`.

Strings are modelled as `List Char`.  JavaScript string operations used by the
source (`trim`, `replace(/\s\s+/g, ' ')`, `+`, truthiness of a string) are
embedded below, restricted to the ASCII whitespace characters matched by the
source's regular expressions.  Timers (`setTimeout` / `clearTimeout`) are
modelled by a multiset of live timer identifiers plus the single ref cell
`silenceTimerRef` holding the most recently scheduled id, so that "at most one
timer is live" is a provable property rather than a modelling assumption.
-/

/-- ASCII whitespace, as matched by the JavaScript `\s` class and `trim()`
(restricted to the ASCII range, which is all the source ever produces). -/
def isWs (c : Char) : Bool :=
  c = ' ' || c = '\t' || c = '\n' || c = '\r' || c = '\x0b' || c = '\x0c'

/-- `String.prototype.trim()`: drop leading and trailing whitespace. -/
def jsTrim (l : List Char) : List Char :=
  ((l.dropWhile isWs).reverse.dropWhile isWs).reverse

/-- Flush the state of a whitespace run: `none` = not inside a run,
`some (some c)` = run of exactly one whitespace character `c` (kept verbatim,
since `/\s\s+/` only matches runs of length ≥ 2), `some none` = run of length
≥ 2 (replaced by a single space). -/
def flushRun : Option (Option Char) → List Char
  | none => []
  | some (some c) => [c]
  | some none => [' ']

/-- Accumulator pass implementing `replace(/\s\s+/g, ' ')`: maximal whitespace
runs of length ≥ 2 become a single `' '`; lone whitespace characters are kept
as they are. -/
def jsCollapseAux : List Char → Option (Option Char) → List Char
  | [], r => flushRun r
  | x :: rest, r =>
    if isWs x then
      match r with
      | none => jsCollapseAux rest (some (some x))
      | some _ => jsCollapseAux rest (some none)
    else
      flushRun r ++ x :: jsCollapseAux rest none

/-- `s.replace(/\s\s+/g, ' ')` from the source. -/
def jsCollapse (l : List Char) : List Char :=
  jsCollapseAux l none

/-- The non-whitespace characters of a string, in order.  Used to state the
conservation properties ("no character dropped or duplicated, up to whitespace
normalization"). -/
def nonWs (l : List Char) : List Char :=
  l.filter (fun c => !(isWs c))

/-! ## Audio frame encoder (`src/utils/audio.ts`) -/

/-- The standard base64 alphabet used by `btoa`. -/
def b64Alphabet : List Char :=
  ("ABCDEFGHIJKLMNOPQRSTUVWXYZabcdefghijklmnopqrstuvwxyz0123456789+/").toList

/-- Character for a 6-bit value. -/
def b64Char (n : Nat) : Char :=
  b64Alphabet.getD n 'A'

/-- Base64 of a byte list, exactly what `btoa(binary)` produces in
`encode` after each byte is turned into one code unit by
`String.fromCharCode`. -/
def encode : List Nat → List Char
  | [] => []
  | [a] => [b64Char (a / 4), b64Char (a % 4 * 16), '=', '=']
  | [a, b] => [b64Char (a / 4), b64Char (a % 4 * 16 + b / 16), b64Char (b % 16 * 4), '=']
  | a :: b :: c :: rest =>
    b64Char (a / 4) :: b64Char (a % 4 * 16 + b / 16) ::
      b64Char (b % 16 * 4 + c / 64) :: b64Char (c % 64) :: encode rest

/-- 6-bit value of a base64 character (inverse of `b64Char`). -/
def b64Val (c : Char) : Nat :=
  b64Alphabet.indexOf c

/-- Base64 decoding of a well-formed base64 string (groups of four
characters, `'='` padding at the end). -/
def b64Decode : List Char → List Nat
  | c1 :: c2 :: c3 :: c4 :: rest =>
    if c3 = '=' then [b64Val c1 * 4 + b64Val c2 / 16]
    else if c4 = '=' then
      [b64Val c1 * 4 + b64Val c2 / 16, b64Val c2 % 16 * 16 + b64Val c3 / 4]
    else
      (b64Val c1 * 4 + b64Val c2 / 16) :: (b64Val c2 % 16 * 16 + b64Val c3 / 4) ::
        ((b64Val c3 % 4 * 64 + b64Val c4) :: b64Decode rest)
  | _ => []

/-- The JavaScript `Int16Array` element conversion (ECMAScript `ToInt16`)
applied to `q * 32768`, as performed by `int16[i] = data[i] * 32768` in
`createBlob`: truncate toward zero, then wrap modulo 2^16.  The result is the
unsigned 16-bit pattern stored in the array.  For a rational `q = num / den`
(`den > 0`), truncation toward zero of `q * 32768` is `Int.tdiv (num * 32768)
den`; the multiplication by `32768 = 2^15` is exact in the source's float64
arithmetic, so rational arithmetic is faithful here. -/
def jsToUint16 (q : ℚ) : Nat :=
  ((Int.tdiv (q.num * 32768) (q.den : ℤ)) % 65536).toNat

/-- Little-endian byte serialization of a 16-bit pattern, as produced by
viewing the `Int16Array` buffer through `Uint8Array` on a little-endian
platform. -/
def byteLE (n : Nat) : List Nat :=
  [n % 256, n / 256]

/-- The wire payload `{ data, mimeType }` built by `createBlob`. -/
structure GenaiBlob where
  data : List Char
  mimeType : List Char
deriving DecidableEq

/-- `createBlob` from `src/utils/audio.ts`: convert each sample to a 16-bit
PCM value, serialize little-endian, base64-encode, tag with the fixed mime
descriptor. -/
def createBlob (samples : List ℚ) : GenaiBlob :=
  { data := encode ((samples.map (fun q => byteLE (jsToUint16 q))).flatten)
    mimeType := ("audio/pcm;rate=16000").toList }

/-- The sample conversion as the spec describes it: `round(sample * 32768)`
(JavaScript `Math.round`, i.e. `⌊x + 1/2⌋`), wrapped to 16 bits.  For
`q = num / den` this is `⌊(2 * num * 32768 + den) / (2 * den)⌋`, computed with
floor division.  This definition follows the spec's words, to be compared with
`jsToUint16`, which follows the code. -/
def roundedToUint16 (q : ℚ) : Nat :=
  ((Int.fdiv (2 * (q.num * 32768) + (q.den : ℤ)) (2 * (q.den : ℤ))) % 65536).toNat

/-- `createBlob` as the spec's words describe it: identical to `createBlob`
except that the sample conversion rounds instead of truncating. -/
def roundedCreateBlob (samples : List ℚ) : GenaiBlob :=
  { data := encode ((samples.map (fun q => byteLE (roundedToUint16 q))).flatten)
    mimeType := ("audio/pcm;rate=16000").toList }

/-! ## Transcript assembler (`src/unnamed/part_000`) -/

/-- The assembler state.  `finalized` and `inProgress` are the two React state
strings `finalizedTranscription` and `inProgressTranscription`; `liveTimers`
is the multiset of scheduled-and-not-yet-fired-or-cancelled timeout ids;
`timerRef` is `silenceTimerRef.current`; `nextId` is the allocator for fresh
timer ids; `listening` is `isListening` (mirrored into `isListeningRef`). -/
structure AssemblerState where
  finalized : List Char
  inProgress : List Char
  liveTimers : List Nat
  timerRef : Option Nat
  nextId : Nat
  listening : Bool
deriving DecidableEq

/-- `if (silenceTimerRef.current) clearTimeout(silenceTimerRef.current)`:
the ref's timer (if any) stops being live; the ref itself is not nulled by
the `onmessage` paths. -/
def clearTimer (s : AssemblerState) : List Nat :=
  match s.timerRef with
  | some id => s.liveTimers.erase id
  | none => s.liveTimers

/-- The body of the silence-timeout callback (and of the flush in
`stopListening`), acting on the two buffers: if `inProgress.trim()` is truthy
(non-empty), commit `(finalized + inProgress.trim() + ' ').replace(/\s\s+/g,
' ')`; in both cases the functional update returns `''` for `inProgress`. -/
def silenceFlush (f ip : List Char) : List Char × List Char :=
  if jsTrim ip ≠ [] then
    (jsCollapse (f ++ jsTrim ip ++ [' ']), [])
  else
    (f, [])

/-- The `onmessage` transcript branch for a fragment `{ text, isFinal }`.
`isFinal` branch: clear the pending timer, commit
`(finalized + inProgress + text).trim() + ' '`, reset `inProgress`.
Partial branch: append `text` to `inProgress`, clear the pending timer, and
schedule a fresh silence timer. -/
def onFragment (s : AssemblerState) (text : List Char) (final : Bool) : AssemblerState :=
  if final then
    { s with
        liveTimers := clearTimer s
        finalized := jsTrim (s.finalized ++ s.inProgress ++ text) ++ [' ']
        inProgress := [] }
  else
    { s with
        inProgress := s.inProgress ++ text
        liveTimers := clearTimer s ++ [s.nextId]
        timerRef := some s.nextId
        nextId := s.nextId + 1 }

/-- Delivery of the timeout with id `id` by the event loop: it runs the
silence-timeout callback only if that timer is still live (a timer that was
`clearTimeout`-ed never fires); firing consumes the timer. -/
def fireTimeout (s : AssemblerState) (id : Nat) : AssemblerState :=
  if id ∈ s.liveTimers then
    { s with
        finalized := (silenceFlush s.finalized s.inProgress).1
        inProgress := (silenceFlush s.finalized s.inProgress).2
        liveTimers := s.liveTimers.erase id }
  else s

/-- `stopListening`: no-op unless listening; otherwise clears and nulls the
silence timer, flushes a non-blank `inProgress` into `finalized` exactly as
the timeout callback does, and clears `inProgress`.  It does not touch
`finalized` beyond that flush. -/
def stopListening (s : AssemblerState) : AssemblerState :=
  if s.listening then
    { finalized := (silenceFlush s.finalized s.inProgress).1
      inProgress := (silenceFlush s.finalized s.inProgress).2
      liveTimers := clearTimer s
      timerRef := none
      nextId := s.nextId
      listening := false }
  else s

/-- `startListening`: no-op while listening; otherwise resets both transcript
buffers and begins a new session.  (It does not touch the timer state; the
timer was already cleared by the preceding `stopListening`.) -/
def startListening (s : AssemblerState) : AssemblerState :=
  if s.listening then s
  else { s with listening := true, finalized := [], inProgress := [] }

/-- The three in-session event kinds the assembler reacts to. -/
inductive AEvent where
  | frag (text : List Char) (final : Bool)
  | timeout (id : Nat)
  | stop
deriving DecidableEq

/-- One scheduler step. -/
def stepEvent (s : AssemblerState) : AEvent → AssemblerState
  | .frag t b => onFragment s t b
  | .timeout id => fireTimeout s id
  | .stop => stopListening s

/-- The state at session start: both buffers empty, no timer, listening. -/
def initState : AssemblerState :=
  { finalized := [], inProgress := [], liveTimers := [], timerRef := none
    nextId := 0, listening := true }

/-- The state after a sequence of events from session start. -/
def runEvents (evs : List AEvent) : AssemblerState :=
  evs.foldl stepEvent initState

/-- The fragment text delivered by one event (empty for non-fragment events). -/
def deliveredText : AEvent → List Char
  | .frag t _ => t
  | _ => []

/-- All fragment text delivered by an event sequence, in arrival order. -/
def delivered (evs : List AEvent) : List Char :=
  (evs.map deliveredText).flatten

/-! ## Whitespace-normalization lemmas and the timer invariant -/

theorem nonWs_append (l1 l2 : List Char) : nonWs (l1 ++ l2) = nonWs l1 ++ nonWs l2 := by
  simp [nonWs, List.filter_append]

theorem nonWs_dropWhile (l : List Char) : nonWs (l.dropWhile isWs) = nonWs l := by
  induction l with
  | nil => rfl
  | cons c rest ih =>
    by_cases h : isWs c
    · simpa [nonWs, List.dropWhile, h] using ih
    · simp [nonWs, List.dropWhile, h]

theorem nonWs_reverse (l : List Char) : nonWs l.reverse = (nonWs l).reverse := by
  simp [nonWs, List.filter_reverse]

theorem nonWs_jsTrim (l : List Char) : nonWs (jsTrim l) = nonWs l := by
  simp [jsTrim, nonWs_reverse, nonWs_dropWhile]

theorem nonWs_flushRun (r : Option (Option Char))
    (h : ∀ c, r = some (some c) → isWs c = true) : nonWs (flushRun r) = [] := by
  match r with
  | none => rfl
  | some none => rfl
  | some (some c) =>
    have hc := h c rfl
    simp [flushRun, nonWs, hc]

theorem nonWs_jsCollapseAux (l : List Char) : ∀ r : Option (Option Char),
    (∀ c, r = some (some c) → isWs c = true) → nonWs (jsCollapseAux l r) = nonWs l := by
  induction l with
  | nil =>
    intro r h
    simpa [jsCollapseAux] using nonWs_flushRun r h
  | cons x rest ih =>
    intro r h
    by_cases hx : isWs x
    · match r with
      | none =>
        have := ih (some (some x)) (by intro c hc; cases hc; exact hx)
        simpa [jsCollapseAux, hx, nonWs] using this
      | some r' =>
        have := ih (some none) (by intro c hc; cases hc)
        simpa [jsCollapseAux, hx, nonWs] using this
    · have := ih none (by intro c hc; cases hc)
      have hr : List.filter (fun c => !isWs c) (flushRun r) = [] := by
        simpa [nonWs] using nonWs_flushRun r h
      simp only [jsCollapseAux, hx, if_neg, Bool.false_eq_true, not_false_iff, ite_false, nonWs,
        List.filter_append, List.filter_cons] at this ⊢
      simp [hx, hr, this]

theorem nonWs_jsCollapse (l : List Char) : nonWs (jsCollapse l) = nonWs l :=
  nonWs_jsCollapseAux l none (by intro c hc; cases hc)

theorem nonWs_eq_nil_of_jsTrim (l : List Char) (h : jsTrim l = []) : nonWs l = [] := by
  have := nonWs_jsTrim l
  rw [h] at this
  exact this.symm

theorem silenceFlush_snd (f ip : List Char) : (silenceFlush f ip).2 = [] := by
  by_cases h : jsTrim ip ≠ []
  · simp [silenceFlush, h]
  · simp [silenceFlush, h]

theorem silenceFlush_nonWs (f ip : List Char) :
    nonWs (silenceFlush f ip).1 = nonWs f ++ nonWs ip := by
  by_cases h : jsTrim ip ≠ []
  · simp only [silenceFlush]
    rw [if_pos h]
    simp only []
    rw [nonWs_jsCollapse, nonWs_append, nonWs_append, nonWs_jsTrim]
    simp [nonWs, isWs]
  · push_neg at h
    have hnil := nonWs_eq_nil_of_jsTrim ip h
    simp [silenceFlush, h, hnil]

theorem stepEvent_nonWs (s : AssemblerState) (e : AEvent) :
    nonWs (stepEvent s e).finalized ++ nonWs (stepEvent s e).inProgress =
      nonWs s.finalized ++ nonWs s.inProgress ++ nonWs (deliveredText e) := by
  match e with
  | .frag t true =>
    show nonWs (jsTrim (s.finalized ++ s.inProgress ++ t) ++ [' ']) ++ nonWs [] =
      nonWs s.finalized ++ nonWs s.inProgress ++ nonWs t
    rw [nonWs_append, nonWs_jsTrim, nonWs_append, nonWs_append]
    simp [nonWs, isWs]
  | .frag t false =>
    show nonWs s.finalized ++ nonWs (s.inProgress ++ t) =
      nonWs s.finalized ++ nonWs s.inProgress ++ nonWs t
    rw [nonWs_append, List.append_assoc]
  | .timeout id =>
    by_cases h : id ∈ s.liveTimers
    · have hstep : stepEvent s (AEvent.timeout id) =
        { s with finalized := (silenceFlush s.finalized s.inProgress).1,
                 inProgress := (silenceFlush s.finalized s.inProgress).2,
                 liveTimers := s.liveTimers.erase id } := by
        simp [stepEvent, fireTimeout, h]
      rw [hstep]
      dsimp only
      rw [silenceFlush_snd, silenceFlush_nonWs]
      simp [deliveredText, nonWs]
    · have hstep : stepEvent s (AEvent.timeout id) = s := by
        simp [stepEvent, fireTimeout, h]
      rw [hstep]
      simp [deliveredText, nonWs]
  | .stop =>
    by_cases h : s.listening
    · have hstep : stepEvent s AEvent.stop =
        { finalized := (silenceFlush s.finalized s.inProgress).1,
          inProgress := (silenceFlush s.finalized s.inProgress).2,
          liveTimers := clearTimer s, timerRef := none, nextId := s.nextId,
          listening := false } := by
        simp [stepEvent, stopListening, h]
      rw [hstep]
      dsimp only
      rw [silenceFlush_snd, silenceFlush_nonWs]
      simp [deliveredText, nonWs]
    · have hstep : stepEvent s AEvent.stop = s := by
        simp [stepEvent, stopListening, h]
      rw [hstep]
      simp [deliveredText, nonWs]

theorem foldl_nonWs (evs : List AEvent) : ∀ s : AssemblerState,
    nonWs (evs.foldl stepEvent s).finalized ++ nonWs (evs.foldl stepEvent s).inProgress =
      nonWs s.finalized ++ nonWs s.inProgress ++ nonWs (delivered evs) := by
  induction evs with
  | nil => intro s; simp [delivered, nonWs]
  | cons e rest ih =>
    intro s
    have h1 := stepEvent_nonWs s e
    have h2 := ih (stepEvent s e)
    simp only [List.foldl_cons]
    rw [h2, h1]
    simp [delivered, nonWs_append, List.append_assoc]

theorem foldl_partials (ts : List (List Char)) : ∀ s : AssemblerState,
    ((ts.map (fun t => AEvent.frag t false)).foldl stepEvent s).finalized = s.finalized ∧
      ((ts.map (fun t => AEvent.frag t false)).foldl stepEvent s).inProgress =
        s.inProgress ++ ts.flatten := by
  induction ts with
  | nil => intro s; simp
  | cons t rest ih =>
    intro s
    have hstep : stepEvent s (AEvent.frag t false) =
      { s with inProgress := s.inProgress ++ t,
               liveTimers := clearTimer s ++ [s.nextId],
               timerRef := some s.nextId,
               nextId := s.nextId + 1 } := rfl
    have hrec := ih (stepEvent s (AEvent.frag t false))
    rw [hstep] at hrec
    simp only [List.map_cons, List.foldl_cons, List.flatten_cons]
    rw [hstep]
    exact ⟨hrec.1, by rw [hrec.2]; simp [List.append_assoc]⟩

/-- Invariant on the timer bookkeeping of a reachable state: either no timer
is live, or exactly the timer held by `silenceTimerRef` is live and its id is
fresh-bounded. -/
def timerInv (s : AssemblerState) : Prop :=
  s.liveTimers = [] ∨ ∃ id, s.liveTimers = [id] ∧ s.timerRef = some id ∧ id < s.nextId

theorem clearTimer_eq_nil (s : AssemblerState) (h : timerInv s) : clearTimer s = [] := by
  rcases h with h | ⟨id, hl, hr, _⟩
  · unfold clearTimer
    rcases s.timerRef with _ | id
    · exact h
    · rw [h]; rfl
  · unfold clearTimer
    rw [hr, hl]
    simp [List.erase_cons]

theorem timerInv_step (s : AssemblerState) (e : AEvent) (h : timerInv s) :
    timerInv (stepEvent s e) := by
  match e with
  | .frag t true =>
    left
    simp [stepEvent, onFragment, clearTimer_eq_nil s h]
  | .frag t false =>
    right
    refine ⟨s.nextId, ?_, rfl, Nat.lt_succ_self _⟩
    simp [stepEvent, onFragment, clearTimer_eq_nil s h]
  | .timeout id =>
    by_cases hm : id ∈ s.liveTimers
    · left
      simp only [stepEvent, fireTimeout, if_pos hm]
      rcases h with h | ⟨id0, hl, _, _⟩
      · rw [h]; rfl
      · rw [hl]
        rw [hl] at hm
        simp only [List.mem_singleton] at hm
        rw [hm]
        simp [List.erase_cons]
    · simpa [stepEvent, fireTimeout, hm] using h
  | .stop =>
    by_cases hl : s.listening
    · left
      simp [stepEvent, stopListening, hl, clearTimer_eq_nil s h]
    · simpa [stepEvent, stopListening, hl] using h

theorem timerInv_foldl (evs : List AEvent) : ∀ s : AssemblerState, timerInv s →
    timerInv (evs.foldl stepEvent s) := by
  induction evs with
  | nil => intro s h; exact h
  | cons e rest ih =>
    intro s h
    exact ih _ (timerInv_step s e h)

theorem timerInv_runEvents (evs : List AEvent) : timerInv (runEvents evs) :=
  timerInv_foldl evs initState (Or.inl rfl)

/-! ## Claim theorems -/

/-- Claim C1 counterexample: the tab character delivered by the fragment
`("\ta", isFinal := true)` is committed by the final-fragment commit, yet
never appears in `finalized` (the commit trims it away), so not every
delivered character ends up in the finalized buffer. -/
theorem c1_counterexample :
    (runEvents [AEvent.frag ['\t', 'a'] true]).inProgress = [] ∧
      (delivered [AEvent.frag ['\t', 'a'] true]).count '\t' = 1 ∧
      ((runEvents [AEvent.frag ['\t', 'a'] true]).finalized).count '\t' = 0 := by
  decide

/-- Claim C1 (amended to non-whitespace characters): for every sequence of
fragment-arrival, timeout and stop events, the non-whitespace characters of
`finalized ++ inProgress` are exactly the non-whitespace characters of all
delivered fragment text, in order — none dropped, none duplicated, none
committed twice; and after a final-fragment commit `inProgress` is empty, so
all of them sit in `finalized`. -/
theorem c1_conservation (evs : List AEvent) :
    nonWs (runEvents evs).finalized ++ nonWs (runEvents evs).inProgress =
      nonWs (delivered evs) ∧
      ∀ t : List Char, (runEvents (evs ++ [AEvent.frag t true])).inProgress = [] := by
  constructor
  · have h := foldl_nonWs evs initState
    simpa [runEvents, initState, nonWs] using h
  · intro t
    have h : runEvents (evs ++ [AEvent.frag t true]) =
        stepEvent (runEvents evs) (AEvent.frag t true) := by
      simp [runEvents, List.foldl_append]
    rw [h]
    rfl

/-- Claim C2: after a final fragment with text `t`, `inProgress` is empty,
`finalized` is the previous `finalized ++ inProgress ++ t`, trimmed, with a
single trailing separator; no timer is pending afterwards; and no
non-whitespace character is dropped or duplicated by the commit. -/
theorem c2_final_commit (evs : List AEvent) (t : List Char) :
    (stepEvent (runEvents evs) (AEvent.frag t true)).inProgress = [] ∧
      (stepEvent (runEvents evs) (AEvent.frag t true)).finalized =
        jsTrim ((runEvents evs).finalized ++ (runEvents evs).inProgress ++ t) ++ [' '] ∧
      (stepEvent (runEvents evs) (AEvent.frag t true)).liveTimers = [] ∧
      nonWs (stepEvent (runEvents evs) (AEvent.frag t true)).finalized =
        nonWs (runEvents evs).finalized ++ nonWs (runEvents evs).inProgress ++ nonWs t := by
  refine ⟨rfl, rfl, ?_, ?_⟩
  · show clearTimer (runEvents evs) = []
    exact clearTimer_eq_nil _ (timerInv_runEvents evs)
  · show nonWs (jsTrim ((runEvents evs).finalized ++ (runEvents evs).inProgress ++ t) ++ [' ']) = _
    rw [nonWs_append, nonWs_jsTrim, nonWs_append, nonWs_append]
    simp [nonWs, isWs]

/-- Claim C3 counterexample: with a blank but non-empty `inProgress` (a single
space), the timeout handler is not a no-op — it clears `inProgress` — so "when
`inProgress` is blank the firing is a no-op" fails as stated. -/
theorem c3_counterexample :
    jsTrim [' '] = [] ∧ silenceFlush ['x', ' '] [' '] ≠ (['x', ' '], [' ']) := by
  decide

/-- Claim C3 (amended): when `inProgress` is non-blank the timeout handler
trims it, appends a separator, merges it into `finalized`, collapses any
resulting double-whitespace, and clears `inProgress`; when `inProgress` is
blank the handler leaves `finalized` unchanged and clears `inProgress` (a
full no-op when `inProgress` is already empty); running the handler twice in
a row changes nothing the second time; and the scenario `("Hello ", partial)`,
`("world", partial)`, timeout yields `finalized = "Hello world "`,
`inProgress = ""`. -/
theorem c3_timeout_behavior :
    (∀ f ip : List Char, jsTrim ip ≠ [] →
        silenceFlush f ip = (jsCollapse (f ++ jsTrim ip ++ [' ']), [])) ∧
      (∀ f ip : List Char, jsTrim ip = [] → silenceFlush f ip = (f, [])) ∧
      (∀ f ip : List Char,
        silenceFlush (silenceFlush f ip).1 (silenceFlush f ip).2 = silenceFlush f ip) ∧
      (runEvents [AEvent.frag (("Hello ").toList) false, AEvent.frag (("world").toList) false,
          AEvent.timeout 1]).finalized = ("Hello world ").toList ∧
      (runEvents [AEvent.frag (("Hello ").toList) false, AEvent.frag (("world").toList) false,
          AEvent.timeout 1]).inProgress = [] := by
  refine ⟨?_, ?_, ?_, by decide, by decide⟩
  · intro f ip h
    unfold silenceFlush
    rw [if_pos h]
  · intro f ip h
    simp [silenceFlush, h]
  · intro f ip
    have h2 := silenceFlush_snd f ip
    rw [h2]
    have h3 : silenceFlush (silenceFlush f ip).1 [] = ((silenceFlush f ip).1, []) := rfl
    rw [h3, Prod.ext_iff]
    exact ⟨rfl, h2.symm⟩

/-- Witness for the amended claim C3 at a concrete non-blank input and a
concrete blank input. -/
theorem c3_timeout_behavior_witness :
    silenceFlush ['x'] [' ', 'a'] = (jsCollapse (['x'] ++ jsTrim [' ', 'a'] ++ [' ']), []) ∧
      silenceFlush ['y'] [' ', '\t'] = (['y'], []) :=
  ⟨c3_timeout_behavior.1 ['x'] [' ', 'a'] (by decide),
    c3_timeout_behavior.2.1 ['y'] [' ', '\t'] (by decide)⟩

/-- Claim C4 counterexample: the scenario `("Bonjour", partial)` then
`("le monde", final)` does not produce `"Bonjour le monde "` — the code
concatenates partial and final text without inserting a separator. -/
theorem c4_counterexample :
    (runEvents [AEvent.frag (("Bonjour").toList) false,
        AEvent.frag (("le monde").toList) true]).finalized ≠
      ("Bonjour le monde ").toList := by
  decide

/-- Claim C4 (amended): from the empty state, `("Bonjour", partial)` then
`("le monde", final)` arriving before the timeout yields
`finalized = "Bonjourle monde "` (no separator is inserted between fragment
texts), `inProgress = ""`, and no timer left pending. -/
theorem c4_scenario :
    (runEvents [AEvent.frag (("Bonjour").toList) false,
        AEvent.frag (("le monde").toList) true]).finalized = ("Bonjourle monde ").toList ∧
      (runEvents [AEvent.frag (("Bonjour").toList) false,
        AEvent.frag (("le monde").toList) true]).inProgress = [] ∧
      (runEvents [AEvent.frag (("Bonjour").toList) false,
        AEvent.frag (("le monde").toList) true]).liveTimers = [] := by
  decide

/-- Claim C5: any run of partial fragments (no final, no timeout) leaves
`finalized` unchanged and makes `inProgress` the untrimmed concatenation of
the delivered texts in arrival order. -/
theorem c5_partials (evs : List AEvent) (ts : List (List Char)) :
    (runEvents (evs ++ ts.map (fun t => AEvent.frag t false))).finalized =
      (runEvents evs).finalized ∧
      (runEvents (evs ++ ts.map (fun t => AEvent.frag t false))).inProgress =
        (runEvents evs).inProgress ++ ts.flatten := by
  have h := foldl_partials ts (runEvents evs)
  simpa [runEvents, List.foldl_append] using h

theorem stopListening_listening (s : AssemblerState) :
    (stopListening s).listening = false := by
  unfold stopListening
  by_cases h : s.listening
  · rw [if_pos h]
  · rw [if_neg h]
    exact Bool.not_eq_true s.listening |>.mp h

/-- Claim C6 counterexample: after committing `"a"` and stopping, `finalized`
is `"a "`, not reset to the empty string — `stop()` does not reset the
`finalized` buffer. -/
theorem c6_counterexample :
    (runEvents [AEvent.frag (("a").toList) true, AEvent.stop]).finalized ≠ [] := by
  decide

/-- Claim C6 (amended): `stop()` cancels any pending timer (and nulls the
ref), performs exactly the silence-timeout commit on a non-blank `inProgress`,
and clears `inProgress`; it leaves `finalized` in place — both buffers are
reset at the next session start (`startListening`), not by `stop()`. -/
theorem c6_stop_behavior (evs : List AEvent)
    (h : (runEvents evs).listening = true) :
    stopListening (runEvents evs) =
      { finalized := (silenceFlush (runEvents evs).finalized (runEvents evs).inProgress).1,
        inProgress := [],
        liveTimers := [],
        timerRef := none,
        nextId := (runEvents evs).nextId,
        listening := false } ∧
      (startListening (stopListening (runEvents evs))).finalized = [] ∧
      (startListening (stopListening (runEvents evs))).inProgress = [] := by
  have hinv := timerInv_runEvents evs
  have hstop : stopListening (runEvents evs) =
      { finalized := (silenceFlush (runEvents evs).finalized (runEvents evs).inProgress).1,
        inProgress := [],
        liveTimers := [],
        timerRef := none,
        nextId := (runEvents evs).nextId,
        listening := false } := by
    unfold stopListening
    rw [if_pos h, silenceFlush_snd, clearTimer_eq_nil _ hinv]
  refine ⟨hstop, ?_, ?_⟩ <;> rw [hstop] <;> rfl

/-- Witness for the amended claim C6 from the session-start state. -/
theorem c6_stop_behavior_witness :
    (startListening (stopListening (runEvents []))).finalized = [] :=
  (c6_stop_behavior [] rfl).2.1

/-- Claim C7: `stop()` is idempotent — a second `stop()` leaves the state of
the first unchanged — and a single `stop()` from a listening state flushes the
pending (non-whitespace) text into `finalized` exactly once. -/
theorem c7_stop_idempotent (s : AssemblerState) :
    stopListening (stopListening s) = stopListening s ∧
      (s.listening = true →
        nonWs (stopListening s).finalized = nonWs s.finalized ++ nonWs s.inProgress) := by
  constructor
  · by_cases h : s.listening = true
    · have hstop : stopListening s =
          { finalized := (silenceFlush s.finalized s.inProgress).1,
            inProgress := (silenceFlush s.finalized s.inProgress).2,
            liveTimers := clearTimer s, timerRef := none, nextId := s.nextId,
            listening := false } := by
        unfold stopListening
        rw [if_pos h]
      rw [hstop]
      rfl
    · have hstop : stopListening s = s := by
        unfold stopListening
        rw [if_neg h]
      rw [hstop]
      exact hstop
  · intro h
    unfold stopListening
    rw [if_pos h]
    exact silenceFlush_nonWs s.finalized s.inProgress

/-- Witness for claim C7 at the session-start state. -/
theorem c7_stop_idempotent_witness :
    stopListening (stopListening initState) = stopListening initState ∧
      nonWs (stopListening initState).finalized =
        nonWs initState.finalized ++ nonWs initState.inProgress :=
  ⟨(c7_stop_idempotent initState).1, (c7_stop_idempotent initState).2 rfl⟩

/-- Claim C8 counterexample: on the in-range sample `3/65536`, the encoder
and the spec's `round(sample * 32768)` description disagree — the code
truncates `1.5` to `1` where the spec's rounding gives `2`. -/
theorem c8_counterexample :
    createBlob [Rat.mk' 3 65536] ≠ roundedCreateBlob [Rat.mk' 3 65536] ∧
      (Rat.mk' 3 65536 : ℚ) = 3 / 65536 := by
  constructor
  · decide
  · rw [Rat.mk'_eq_divInt, Rat.divInt_eq_div]
    norm_num

/-- Claim C8 (amended): the encoder converts each sample with the JavaScript
`ToInt16` conversion (truncation toward zero, wrapped to 16 bits — not
rounding), serializes little-endian, base64-encodes, and tags the payload
`"audio/pcm;rate=16000"`; `encodePcmFrame([0.5, -0.5])` produces a base64
string decoding to the little-endian bytes of `16384` and of `-16384 mod
2^16`, with that mime tag. -/
theorem c8_scenario :
    (Rat.mk' 1 2 : ℚ) = 1 / 2 ∧
      (Rat.mk' (-1) 2 : ℚ) = -(1 / 2) ∧
      (createBlob [Rat.mk' 1 2, Rat.mk' (-1) 2]).data = ("AEAAwA==").toList ∧
      b64Decode (createBlob [Rat.mk' 1 2, Rat.mk' (-1) 2]).data =
        byteLE ((16384 : ℤ) % 65536).toNat ++ byteLE (((-16384 : ℤ) % 65536)).toNat ∧
      (createBlob [Rat.mk' 1 2, Rat.mk' (-1) 2]).mimeType = ("audio/pcm;rate=16000").toList := by
  refine ⟨?_, ?_, by decide, by decide, by decide⟩
  · rw [Rat.mk'_eq_divInt, Rat.divInt_eq_div]
    norm_num
  · rw [Rat.mk'_eq_divInt, Rat.divInt_eq_div]
    norm_num

/-- Claim C9: in every reachable state at most one silence timer is live, and
a fragment arrival (partial or final) always removes the previously live
timer, so a superseded timer can never fire. -/
theorem c9_single_timer (evs : List AEvent) :
    (runEvents evs).liveTimers.length ≤ 1 ∧
      ∀ id t b, id ∈ (runEvents evs).liveTimers →
        id ∉ (stepEvent (runEvents evs) (AEvent.frag t b)).liveTimers := by
  have hinv := timerInv_runEvents evs
  constructor
  · rcases hinv with h | ⟨id0, hl, _, _⟩
    · rw [h]; exact Nat.zero_le 1
    · rw [hl]; exact le_refl 1
  · intro id t b hm
    have hclear : clearTimer (runEvents evs) = [] := clearTimer_eq_nil _ hinv
    match b with
    | true =>
      show id ∉ clearTimer (runEvents evs)
      rw [hclear]
      exact List.not_mem_nil id
    | false =>
      show id ∉ clearTimer (runEvents evs) ++ [(runEvents evs).nextId]
      rw [hclear, List.nil_append, List.mem_singleton]
      rcases hinv with h | ⟨id0, hl, _, hlt⟩
      · rw [h] at hm
        cases hm
      · rw [hl, List.mem_singleton] at hm
        subst hm
        omega

/-- Witness for claim C9: the timer scheduled by the first partial fragment
is no longer live after the second fragment arrives. -/
theorem c9_single_timer_witness :
    (runEvents [AEvent.frag ['a'] false]).liveTimers.length ≤ 1 ∧
      0 ∉ (stepEvent (runEvents [AEvent.frag ['a'] false]) (AEvent.frag ['b'] false)).liveTimers :=
  ⟨(c9_single_timer [AEvent.frag ['a'] false]).1,
    (c9_single_timer [AEvent.frag ['a'] false]).2 0 ['b'] false (by decide)⟩

/-- Claim C10: every operation only appends to `finalized` up to whitespace
normalization — the non-whitespace characters of the new `finalized` extend
those of the old one, so no previously committed non-whitespace character is
removed, altered or reordered. -/
theorem c10_append_only (s : AssemblerState) (e : AEvent) :
    ∃ rest : List Char, nonWs (stepEvent s e).finalized = nonWs s.finalized ++ rest := by
  match e with
  | .frag t true =>
    refine ⟨nonWs s.inProgress ++ nonWs t, ?_⟩
    show nonWs (jsTrim (s.finalized ++ s.inProgress ++ t) ++ [' ']) = _
    rw [nonWs_append, nonWs_jsTrim, nonWs_append, nonWs_append]
    simp [nonWs, isWs]
  | .frag t false =>
    refine ⟨[], ?_⟩
    show nonWs s.finalized = nonWs s.finalized ++ []
    rw [List.append_nil]
  | .timeout id =>
    by_cases h : id ∈ s.liveTimers
    · refine ⟨nonWs s.inProgress, ?_⟩
      have hstep : (stepEvent s (AEvent.timeout id)).finalized =
          (silenceFlush s.finalized s.inProgress).1 := by
        simp [stepEvent, fireTimeout, h]
      rw [hstep, silenceFlush_nonWs]
    · refine ⟨[], ?_⟩
      have hstep : stepEvent s (AEvent.timeout id) = s := by
        simp [stepEvent, fireTimeout, h]
      rw [hstep, List.append_nil]
  | .stop =>
    by_cases h : s.listening
    · refine ⟨nonWs s.inProgress, ?_⟩
      have hstep : (stepEvent s AEvent.stop).finalized =
          (silenceFlush s.finalized s.inProgress).1 := by
        simp [stepEvent, stopListening, h]
      rw [hstep, silenceFlush_nonWs]
    · refine ⟨[], ?_⟩
      have hstep : stepEvent s AEvent.stop = s := by
        simp [stepEvent, stopListening, h]
      rw [hstep, List.append_nil]
